import Mathlib

/-!
Verification model of the mzmlpy reader core.

Files are modelled as `List Char` (one `Char` per byte; all inputs of
interest are ASCII).  Offsets are `Nat`.  Python dictionaries are modelled
as association lists with Python's insertion-order semantics.  External
codec libraries (zlib, zstd, pynumpress, numpy, the XML parser) are
represented symbolically: the decode pipeline records which codec steps
run, in order, and XML parsing is a boolean oracle passed as a parameter.
Everything else (regex matching, chunked scanning, line iteration,
dictionary building, dispatching) is translated directly from the source.
-/

set_option maxRecDepth 40000

namespace Mzml

/-- Shorthand turning a string literal into the byte-level char list. -/
def cs (s : String) : List Char := s.data

/-- Byte strings (ASCII). -/
abbrev Bytes := List Char

/-! ## Python dict as an insertion-ordered association list -/

/-- Python `d[k]` membership-or-value lookup (`k in d`, `d[k]`). -/
def alookup (d : List (Bytes × Nat)) (k : Bytes) : Option Nat :=
  match d with
  | [] => none
  | (k', v) :: rest => if k' = k then some v else alookup rest k

/-- Python `d[k] = v`: overwrite in place if present, else append. -/
def dinsert (d : List (Bytes × Nat)) (k : Bytes) (v : Nat) : List (Bytes × Nat) :=
  match d with
  | [] => [(k, v)]
  | (k', v') :: rest => if k' = k then (k', v) :: rest else (k', v') :: dinsert rest k v

/-- Python `d1.update(d2)`: iterate `d2` assigning into `d1`. -/
def dupdate (d1 d2 : List (Bytes × Nat)) : List (Bytes × Nat) :=
  d2.foldl (fun d kv => dinsert d kv.1 kv.2) d1

/-! ## Binary-array decoder (`spectra.py`) -/

/-- numpy dtypes appearing in `BINARY_DECODE_DTYPES`. -/
inductive NpDtype
  | float32
  | float64
  | int32
  | int64
deriving DecidableEq

/-- `constants.BinaryDataTypeAccession` members, in declaration order. -/
inductive BinaryDataTypeAccession
  | FLOAT_32
  | FLOAT_64
  | INT_32
  | INT_64
  | ASCII_STRING
deriving DecidableEq

/-- The accession string of each `BinaryDataTypeAccession` member. -/
def binaryTypeAccession : BinaryDataTypeAccession → Bytes
  | .FLOAT_32 => cs "MS:1000521"
  | .FLOAT_64 => cs "MS:1000523"
  | .INT_32 => cs "MS:1000519"
  | .INT_64 => cs "MS:1000522"
  | .ASCII_STRING => cs "MS:1001479"

/-- Declaration order of the `BinaryDataTypeAccession` enum
(the `encoding` property iterates the enum in this order). -/
def binaryTypeEnumOrder : List BinaryDataTypeAccession :=
  [.FLOAT_32, .FLOAT_64, .INT_32, .INT_64, .ASCII_STRING]

/-- `constants.CompressionTypeAccessions` members. -/
inductive CompressionTypeAccessions
  | BYTE_SHUFFLED_ZSTD
  | MS_NUMPRESS_SHORT_LOGGED_FLOAT
  | TRUNCATION_LINEAR_PREDICTION_ZLIB
  | ZLIB_COMPRESSION
  | NO_COMPRESSION
  | DICTIONARY_ENCODED_ZSTD
  | MS_NUMPRESS_LINEAR_PREDICTION_ZLIB
  | TRUNCATION_ZLIB
  | MS_NUMPRESS_SHORT_LOGGED_FLOAT_ZLIB
  | MS_NUMPRESS_LINEAR_PREDICTION_ZSTD
  | MS_NUMPRESS_POSITIVE_INTEGER_ZLIB
  | MS_NUMPRESS_SHORT_LOGGED_FLOAT_ZSTD
  | MS_NUMPRESS_LINEAR_PREDICTION
  | MS_NUMPRESS_POSITIVE_INTEGER
  | TRUNCATION_DELTA_PREDICTION_ZLIB
  | ZSTD_COMPRESSION
  | MS_NUMPRESS_POSITIVE_INTEGER_ZSTD
deriving DecidableEq

/-- Value table of `CompressionTypeAccessions`
(`CompressionTypeAccessions(param.accession)` is a value lookup). -/
def compressionOfAccession (a : Bytes) : Option CompressionTypeAccessions :=
  if a = cs "MS:1003781" then some .BYTE_SHUFFLED_ZSTD
  else if a = cs "MS:1002314" then some .MS_NUMPRESS_SHORT_LOGGED_FLOAT
  else if a = cs "MS:1003090" then some .TRUNCATION_LINEAR_PREDICTION_ZLIB
  else if a = cs "MS:1000574" then some .ZLIB_COMPRESSION
  else if a = cs "MS:1000576" then some .NO_COMPRESSION
  else if a = cs "MS:1003782" then some .DICTIONARY_ENCODED_ZSTD
  else if a = cs "MS:1002746" then some .MS_NUMPRESS_LINEAR_PREDICTION_ZLIB
  else if a = cs "MS:1003088" then some .TRUNCATION_ZLIB
  else if a = cs "MS:1002748" then some .MS_NUMPRESS_SHORT_LOGGED_FLOAT_ZLIB
  else if a = cs "MS:1003783" then some .MS_NUMPRESS_LINEAR_PREDICTION_ZSTD
  else if a = cs "MS:1002747" then some .MS_NUMPRESS_POSITIVE_INTEGER_ZLIB
  else if a = cs "MS:1003785" then some .MS_NUMPRESS_SHORT_LOGGED_FLOAT_ZSTD
  else if a = cs "MS:1002312" then some .MS_NUMPRESS_LINEAR_PREDICTION
  else if a = cs "MS:1002313" then some .MS_NUMPRESS_POSITIVE_INTEGER
  else if a = cs "MS:1003089" then some .TRUNCATION_DELTA_PREDICTION_ZLIB
  else if a = cs "MS:1003780" then some .ZSTD_COMPRESSION
  else if a = cs "MS:1003784" then some .MS_NUMPRESS_POSITIVE_INTEGER_ZSTD
  else none

/-- `BinaryDataArray.compression`: first cv param (document order) whose
accession is a member of the compression enumeration. -/
def resolveCompression : List Bytes → Option CompressionTypeAccessions
  | [] => none
  | a :: rest =>
    match compressionOfAccession a with
    | some c => some c
    | none => resolveCompression rest

/-- `BinaryDataArray.encoding`: iterate the `BinaryDataTypeAccession` enum in
declaration order, returning the first member present in the accession set. -/
def resolveEncoding (accs : List Bytes) : Option BinaryDataTypeAccession :=
  binaryTypeEnumOrder.find? (fun e => accs.contains (binaryTypeAccession e))

/-- `constants.BINARY_DECODE_DTYPES` (note: no entry for ASCII_STRING). -/
def dtypeOf : BinaryDataTypeAccession → Option NpDtype
  | .FLOAT_32 => some .float32
  | .FLOAT_64 => some .float64
  | .INT_32 => some .int32
  | .INT_64 => some .int64
  | .ASCII_STRING => none

/-- Base64 value of a single alphabet character (RFC 4648, standard). -/
def b64val (c : Char) : Option Nat :=
  if 'A' ≤ c ∧ c ≤ 'Z' then some (c.toNat - 65)
  else if 'a' ≤ c ∧ c ≤ 'z' then some (c.toNat - 97 + 26)
  else if '0' ≤ c ∧ c ≤ '9' then some (c.toNat - 48 + 52)
  else if c = '+' then some 62
  else if c = '/' then some 63
  else none

/-- Characters `binascii.a2b_base64` keeps (alphabet plus padding). -/
def b64IsAlphabet (c : Char) : Bool := (b64val c).isSome || c = '='

/-- Decode filtered base64 text four characters at a time; a padding
character ends the data (as in `binascii.a2b_base64`). -/
def b64Groups : List Char → Option (List Nat)
  | [] => some []
  | c1 :: c2 :: c3 :: c4 :: rest => do
    let v1 ← b64val c1
    let v2 ← b64val c2
    if c3 = '=' then
      if c4 = '=' then some [v1 * 4 + v2 / 16] else none
    else do
      let v3 ← b64val c3
      if c4 = '=' then some [v1 * 4 + v2 / 16, v2 % 16 * 16 + v3 / 4]
      else do
        let v4 ← b64val c4
        let tl ← b64Groups rest
        some ([v1 * 4 + v2 / 16, v2 % 16 * 16 + v3 / 4, v3 % 4 * 64 + v4] ++ tl)
  | _ => none

/-- `base64.b64decode`: discard foreign characters, then the remaining
length must be a multiple of four. -/
def b64decode (s : Bytes) : Option (List Nat) :=
  let t := s.filter b64IsAlphabet
  if t.length % 4 = 0 then b64Groups t else none

/-- The cv-param accessions (document order) and base64 text of one
`<binaryDataArray>` element; `binaryText = none` models a missing
`<binary>` child or one without text. -/
structure BinaryDataArray where
  accs : List Bytes
  binaryText : Option Bytes
deriving DecidableEq

/-- Symbolic codec pipeline steps (the external codecs of `decoder.py`). -/
inductive Step
  | base64
  | zlibInflate
  | zstdInflate
  | npLinear
  | npPic
  | npSlof
  | reinterpret (dt : NpDtype)
  | widenF64
deriving DecidableEq

/-- Errors `BinaryDataArray._decode` can raise. -/
inductive DecodeErr
  | unsupportedDtype
  | notImplemented (c : CompressionTypeAccessions)
  | b64Error
deriving DecidableEq

/-- Result value of `_decode`: the empty float64 array, or the chain of
codec steps producing the (64-bit float) output. -/
inductive DecodeOut
  | emptyArr
  | arr (steps : List Step)
deriving DecidableEq

/-- User-visible warnings `_decode` can emit. -/
inductive DWarn
  | missingCompression
  | missingDataType
  | noBinaryData
  | emptyData
deriving DecidableEq

instance {ε α : Type} [DecidableEq ε] [DecidableEq α] : DecidableEq (Except ε α)
  | .error a, .error b =>
    if h : a = b then .isTrue (by rw [h]) else .isFalse (fun hh => h (Except.error.inj hh))
  | .error _, .ok _ => .isFalse (fun hh => Except.noConfusion hh)
  | .ok _, .error _ => .isFalse (fun hh => Except.noConfusion hh)
  | .ok a, .ok b =>
    if h : a = b then .isTrue (by rw [h]) else .isFalse (fun hh => h (Except.ok.inj hh))

/-- Warnings emitted plus the outcome of `_decode`. -/
structure DecodeResult where
  warnings : List DWarn
  out : Except DecodeErr DecodeOut
deriving DecidableEq

/-- `decode_to_numpy`: reinterpret the bytes produced by `steps` through the
declared numeric type and widen to float64; `ValueError` when the type has
no numpy dtype. -/
def decodeToNumpy (steps : List Step) (e : BinaryDataTypeAccession) :
    Except DecodeErr DecodeOut :=
  match dtypeOf e with
  | none => .error .unsupportedDtype
  | some dt => .ok (.arr (steps ++ [.reinterpret dt, .widenF64]))

/-- The `match compression_type` dispatch of `_decode`, case for case in
source order (the Lean match is exhaustive, as the Python one is over the
enum, so the unreachable `case _` fallback is not represented). -/
def decodeDispatch (c : CompressionTypeAccessions) (e : BinaryDataTypeAccession) :
    Except DecodeErr DecodeOut :=
  match c with
  | .BYTE_SHUFFLED_ZSTD => .error (.notImplemented c)
  | .MS_NUMPRESS_SHORT_LOGGED_FLOAT => .ok (.arr [.base64, .npSlof])
  | .TRUNCATION_LINEAR_PREDICTION_ZLIB => .error (.notImplemented c)
  | .ZLIB_COMPRESSION => decodeToNumpy [.base64, .zlibInflate] e
  | .NO_COMPRESSION => decodeToNumpy [.base64] e
  | .DICTIONARY_ENCODED_ZSTD => .error (.notImplemented c)
  | .MS_NUMPRESS_LINEAR_PREDICTION_ZLIB => .ok (.arr [.base64, .zlibInflate, .npLinear])
  | .TRUNCATION_ZLIB => decodeToNumpy [.base64, .zlibInflate] e
  | .MS_NUMPRESS_SHORT_LOGGED_FLOAT_ZLIB => .ok (.arr [.base64, .zlibInflate, .npSlof])
  | .MS_NUMPRESS_LINEAR_PREDICTION_ZSTD => .ok (.arr [.base64, .zstdInflate, .npLinear])
  | .MS_NUMPRESS_POSITIVE_INTEGER_ZLIB => .ok (.arr [.base64, .zlibInflate, .npPic])
  | .MS_NUMPRESS_SHORT_LOGGED_FLOAT_ZSTD => .ok (.arr [.base64, .zstdInflate, .npSlof])
  | .MS_NUMPRESS_LINEAR_PREDICTION => .ok (.arr [.base64, .npLinear])
  | .MS_NUMPRESS_POSITIVE_INTEGER => .ok (.arr [.base64, .npPic])
  | .TRUNCATION_DELTA_PREDICTION_ZLIB => .error (.notImplemented c)
  | .ZSTD_COMPRESSION => decodeToNumpy [.base64, .zstdInflate] e
  | .MS_NUMPRESS_POSITIVE_INTEGER_ZSTD => .ok (.arr [.base64, .zstdInflate, .npPic])

/-- `BinaryDataArray._decode`. -/
def decode (bda : BinaryDataArray) : DecodeResult :=
  let cw :=
    match resolveCompression bda.accs with
    | some c => (c, ([] : List DWarn))
    | none => (.NO_COMPRESSION, [.missingCompression])
  let ew :=
    match resolveEncoding bda.accs with
    | some e => (e, ([] : List DWarn))
    | none => (.FLOAT_64, [.missingDataType])
  match bda.binaryText with
  | none => ⟨cw.2 ++ ew.2 ++ [.noBinaryData], .ok .emptyArr⟩
  | some txt =>
    match b64decode txt with
    | none => ⟨cw.2 ++ ew.2, .error .b64Error⟩
    | some data =>
      if data.length = 0 then ⟨cw.2 ++ ew.2 ++ [.emptyData], .ok .emptyArr⟩
      else ⟨cw.2 ++ ew.2, decodeDispatch cw.1 ew.1⟩

/-- Modelled from the spec: the pipeline table of section 4.B, row for row,
used only as the comparison point of the refinement claim about the
compression dispatch. -/
def pipelineSpecTable (c : CompressionTypeAccessions) (dt : NpDtype) :
    Except DecodeErr (List Step) :=
  match c with
  | .NO_COMPRESSION => .ok [.base64, .reinterpret dt, .widenF64]
  | .ZLIB_COMPRESSION => .ok [.base64, .zlibInflate, .reinterpret dt, .widenF64]
  | .ZSTD_COMPRESSION => .ok [.base64, .zstdInflate, .reinterpret dt, .widenF64]
  | .MS_NUMPRESS_LINEAR_PREDICTION => .ok [.base64, .npLinear]
  | .MS_NUMPRESS_POSITIVE_INTEGER => .ok [.base64, .npPic]
  | .MS_NUMPRESS_SHORT_LOGGED_FLOAT => .ok [.base64, .npSlof]
  | .MS_NUMPRESS_LINEAR_PREDICTION_ZLIB => .ok [.base64, .zlibInflate, .npLinear]
  | .MS_NUMPRESS_POSITIVE_INTEGER_ZLIB => .ok [.base64, .zlibInflate, .npPic]
  | .MS_NUMPRESS_SHORT_LOGGED_FLOAT_ZLIB => .ok [.base64, .zlibInflate, .npSlof]
  | .MS_NUMPRESS_LINEAR_PREDICTION_ZSTD => .ok [.base64, .zstdInflate, .npLinear]
  | .MS_NUMPRESS_POSITIVE_INTEGER_ZSTD => .ok [.base64, .zstdInflate, .npPic]
  | .MS_NUMPRESS_SHORT_LOGGED_FLOAT_ZSTD => .ok [.base64, .zstdInflate, .npSlof]
  | .TRUNCATION_ZLIB => .ok [.base64, .zlibInflate, .reinterpret dt, .widenF64]
  | .BYTE_SHUFFLED_ZSTD => .error (.notImplemented c)
  | .DICTIONARY_ENCODED_ZSTD => .error (.notImplemented c)
  | .TRUNCATION_LINEAR_PREDICTION_ZLIB => .error (.notImplemented c)
  | .TRUNCATION_DELTA_PREDICTION_ZLIB => .error (.notImplemented c)

/-- C3: for every binary data array with a non-empty payload, `_decode`
dispatches on the compression accession exactly as the spec's pipeline
table states — each supported accession runs the listed codec chain ending
in 64-bit floats, and each of the four reject-list accessions raises a
not-implemented error. -/
theorem C3_decode_dispatch_matches_spec_table
    (accs : List Bytes) (txt : Bytes) (data : List Nat)
    (c : CompressionTypeAccessions) (e : BinaryDataTypeAccession) (dt : NpDtype)
    (hc : resolveCompression accs = some c)
    (he : resolveEncoding accs = some e)
    (hdt : dtypeOf e = some dt)
    (hb : b64decode txt = some data) (hne : data ≠ []) :
    (decode ⟨accs, some txt⟩).out = (pipelineSpecTable c dt).map DecodeOut.arr := by
  have hlen : ¬ data.length = 0 := by simpa using hne
  unfold decode
  simp only [hc, he, hb, if_neg hlen]
  cases c <;> simp [decodeDispatch, decodeToNumpy, pipelineSpecTable, hdt, Except.map]

theorem C3_decode_dispatch_matches_spec_table_witness :
    resolveCompression [cs "MS:1000574", cs "MS:1000523"] = some .ZLIB_COMPRESSION ∧
    b64decode (cs "QUJD") = some [65, 66, 67] ∧
    (decode ⟨[cs "MS:1000574", cs "MS:1000523"], some (cs "QUJD")⟩).out
      = (pipelineSpecTable .ZLIB_COMPRESSION .float64).map DecodeOut.arr :=
  ⟨by decide, by decide,
    C3_decode_dispatch_matches_spec_table _ _ [65, 66, 67] _ .FLOAT_64 _
      (by decide) (by decide) (by decide) (by decide) (by decide)⟩

/-- C6: `_decode` with no compression accession proceeds with the
no-compression default and warns; with no numeric-type accession it
proceeds with the 64-bit-float default and warns; with an absent binary
payload, or one decoding to zero bytes, it returns the empty float64
array with a warning instead of raising. -/
theorem C6_decode_defaults_and_warnings
    (accs : List Bytes) (txt : Bytes) (data : List Nat)
    (e : BinaryDataTypeAccession) (c : CompressionTypeAccessions) :
    (resolveCompression accs = none → resolveEncoding accs = some e →
      b64decode txt = some data → data ≠ [] →
      DWarn.missingCompression ∈ (decode ⟨accs, some txt⟩).warnings ∧
      (decode ⟨accs, some txt⟩).out = decodeDispatch .NO_COMPRESSION e) ∧
    (resolveCompression accs = some c → resolveEncoding accs = none →
      b64decode txt = some data → data ≠ [] →
      DWarn.missingDataType ∈ (decode ⟨accs, some txt⟩).warnings ∧
      (decode ⟨accs, some txt⟩).out = decodeDispatch c .FLOAT_64) ∧
    ((decode ⟨accs, none⟩).out = .ok .emptyArr ∧
      DWarn.noBinaryData ∈ (decode ⟨accs, none⟩).warnings) ∧
    (b64decode txt = some [] →
      (decode ⟨accs, some txt⟩).out = .ok .emptyArr ∧
      DWarn.emptyData ∈ (decode ⟨accs, some txt⟩).warnings) := by
  refine ⟨?_, ?_, ?_, ?_⟩
  · intro hc he hb hne
    have hlen : ¬ data.length = 0 := by simpa using hne
    unfold decode
    simp [hc, he, hb, if_neg hlen, hne]
  · intro hc he hb hne
    have hlen : ¬ data.length = 0 := by simpa using hne
    unfold decode
    simp [hc, he, hb, if_neg hlen, hne]
  · unfold decode
    cases hrc : resolveCompression accs <;> cases hre : resolveEncoding accs <;> simp
  · intro hb
    unfold decode
    cases hrc : resolveCompression accs <;> cases hre : resolveEncoding accs <;> simp [hb]

theorem C6_decode_defaults_and_warnings_witness :
    (DWarn.missingCompression ∈ (decode ⟨[cs "MS:1000523"], some (cs "QUJD")⟩).warnings ∧
      (decode ⟨[cs "MS:1000523"], some (cs "QUJD")⟩).out
        = decodeDispatch .NO_COMPRESSION .FLOAT_64) ∧
    (DWarn.missingDataType ∈ (decode ⟨[cs "MS:1000576"], some (cs "QUJD")⟩).warnings ∧
      (decode ⟨[cs "MS:1000576"], some (cs "QUJD")⟩).out
        = decodeDispatch .NO_COMPRESSION .FLOAT_64) ∧
    ((decode ⟨[cs "MS:1000576"], none⟩).out = .ok .emptyArr ∧
      DWarn.noBinaryData ∈ (decode ⟨[cs "MS:1000576"], none⟩).warnings) ∧
    ((decode ⟨[cs "MS:1000523"], some (cs "")⟩).out = .ok .emptyArr ∧
      DWarn.emptyData ∈ (decode ⟨[cs "MS:1000523"], some (cs "")⟩).warnings) :=
  ⟨(C6_decode_defaults_and_warnings [cs "MS:1000523"] (cs "QUJD") [65, 66, 67]
      .FLOAT_64 .NO_COMPRESSION).1 (by decide) (by decide) (by decide) (by decide),
   (C6_decode_defaults_and_warnings [cs "MS:1000576"] (cs "QUJD") [65, 66, 67]
      .FLOAT_64 .NO_COMPRESSION).2.1 (by decide) (by decide) (by decide) (by decide),
   (C6_decode_defaults_and_warnings [cs "MS:1000576"] (cs "QUJD") [65, 66, 67]
      .FLOAT_64 .NO_COMPRESSION).2.2.1,
   (C6_decode_defaults_and_warnings [cs "MS:1000523"] (cs "") []
      .FLOAT_64 .NO_COMPRESSION).2.2.2 (by decide)⟩

/-! ## Subtree extraction (`_read_to_spec_end`, `_read_until_tag_end`) -/

/-- Bytes at which `_read_until_tag_end` stops (after reading them). -/
def isTagStop (c : Char) : Bool := c = '>' || c = '<' || c = ' '

/-- Helper loop of `readUntilTagEnd`, counting down the 12-byte budget. -/
def readTagEndGo (file : Bytes) : Nat → Nat → Bytes → Bytes × Nat
  | 0, p, acc => (acc, p)
  | n + 1, p, acc =>
    match file[p]? with
    | none => (acc, p)
    | some c => if isTagStop c then (acc ++ [c], p + 1) else readTagEndGo file n (p + 1) (acc ++ [c])

/-- `_read_until_tag_end`: read up to 12 single bytes, stopping after `>`,
`<` or a space; at end of file the reads return nothing.  Returns the bytes
read and the new cursor position. -/
def readUntilTagEnd (file : Bytes) (pos : Nat) : Bytes × Nat :=
  readTagEndGo file 12 pos []

/-- `re.search` of a fixed literal pattern: position just past the first
occurrence, if any. -/
def searchLitEnd (pat : Bytes) : Bytes → Option Nat
  | [] => if pat = [] then some 0 else none
  | c :: rest =>
    if pat.isPrefixOf (c :: rest) then some pat.length
    else (searchLitEnd pat rest).map (· + 1)

/-- Loop state of `_read_to_spec_end`: binary cursor position, accumulated
`data_chunk`, and the saved `start_pos`. -/
structure ExtractState where
  pos : Nat
  buffer : Bytes
  startPos : Nat
deriving DecidableEq

/-- One iteration of the `while not end_found` loop of `_read_to_spec_end`:
read a 4 KiB chunk and then up to the next tag boundary, append both to
the buffer, then search it for `</spectrum>` and then `</chromatogram>`.
`Sum.inr` carries the found `(start_pos, end_pos)`. -/
def extractStep (file : Bytes) (st : ExtractState) : ExtractState ⊕ (Nat × Nat) :=
  let chunk := (file.drop st.pos).take 4096
  let p1 := st.pos + chunk.length
  let te := readUntilTagEnd file p1
  let buf := st.buffer ++ chunk ++ te.1
  match searchLitEnd (cs "</spectrum>") buf with
  | some e => .inr (st.startPos, st.startPos + e)
  | none =>
    match searchLitEnd (cs "</chromatogram>") buf with
    | some e => .inr (st.startPos, st.startPos + e)
    | none => .inl ⟨te.2, buf, st.startPos⟩

/-- State after the pre-loop `seeker.read(chunk_size)` of
`_read_to_spec_end` at offset `off`. -/
def extractInit (file : Bytes) (off : Nat) : ExtractState :=
  let chunk := (file.drop off).take 4096
  ⟨off + chunk.length, chunk, off⟩

/-- Run the extraction loop.  Once the cursor reaches end of file the state
can never change again, so a loop iteration that neither finds a close tag
nor advances the cursor is reported as `none`: the Python loop spins
forever there.  The fuel is one more than the file length, enough for the
cursor to reach end of file (each continuing iteration advances it). -/
def extractLoop (file : Bytes) : Nat → ExtractState → Option (Nat × Nat)
  | 0, _ => none
  | fuel + 1, st =>
    match extractStep file st with
    | .inr r => some r
    | .inl st' => if st.pos < file.length then extractLoop file fuel st' else none

/-- `_read_to_spec_end` at a given offset: `some (start_pos, end_pos)`, or
`none` when the loop never terminates. -/
def extractRun (file : Bytes) (off : Nat) : Option (Nat × Nat) :=
  extractLoop file (file.length + 1) (extractInit file off)

/-- Iterate the loop body `n` times (for stating non-termination). -/
def extractIter (file : Bytes) : Nat → ExtractState → ExtractState ⊕ (Nat × Nat)
  | 0, st => .inl st
  | n + 1, st =>
    match extractStep file st with
    | .inr r => .inr r
    | .inl st' => extractIter file n st'

/-! ## Random-access reader state and lookups (`standardMzml.py`) -/

/-- The offset dictionaries and key lists of `AbstractRandomAccessMzml`. -/
structure Tables where
  spectrumOffsets : List (Bytes × Nat)
  chromatogramOffsets : List (Bytes × Nat)
  spectrumKeys : List Bytes
  chromatogramKeys : List Bytes
deriving DecidableEq

/-- A constructed random-access reader: file contents plus index tables. -/
structure RAState where
  file : Bytes
  tables : Tables
deriving DecidableEq

/-- Error kinds of the lookup operations. -/
inductive LookupErr
  | notFound (key : Bytes)
  | outOfRange
  | parseError (key : Bytes)
  | xmlError (key : Bytes)
  | extractionHangs
deriving DecidableEq

/-- `str(identifier)` conversion applied to integer identifiers. -/
def idStr : Int ⊕ Bytes → Bytes
  | .inl i => cs (toString i)
  | .inr s => s

/-- `get_spectrum_by_id`: convert, look up the offset, extract the subtree
and parse it (`xmlOk` is the symbolic XML parser; its failure is re-raised
as a ValueError, `parseError`). -/
def getSpectrumById (xmlOk : Bytes → Bool) (st : RAState) (ident : Int ⊕ Bytes) :
    Except LookupErr Bytes :=
  let key := idStr ident
  match alookup st.tables.spectrumOffsets key with
  | none => .error (.notFound key)
  | some off =>
    match extractRun st.file off with
    | none => .error .extractionHangs
    | some se =>
      let data := (st.file.drop off).take (se.2 - off)
      if xmlOk data then .ok data else .error (.parseError key)

/-- `get_spectrum_by_index`: explicit `0 <= index < len` bounds check on
the insertion-ordered key list, then id lookup. -/
def getSpectrumByIndex (xmlOk : Bytes → Bool) (st : RAState) (index : Int) :
    Except LookupErr Bytes :=
  if h : 0 ≤ index ∧ index < (st.tables.spectrumKeys.length : Int) then
    getSpectrumById xmlOk st (.inr (st.tables.spectrumKeys.get ⟨index.toNat, by omega⟩))
  else .error .outOfRange

/-- `get_chromatogram_by_id`: like the spectrum version, but an XML parse
failure propagates unwrapped (`xmlError`). -/
def getChromatogramById (xmlOk : Bytes → Bool) (st : RAState) (ident : Int ⊕ Bytes) :
    Except LookupErr Bytes :=
  let key := idStr ident
  match alookup st.tables.chromatogramOffsets key with
  | none => .error (.notFound key)
  | some off =>
    match extractRun st.file off with
    | none => .error .extractionHangs
    | some se =>
      let data := (st.file.drop off).take (se.2 - off)
      if xmlOk data then .ok data else .error (.xmlError key)

/-- Python list subscription with an `int` index (negative indices count
from the end; out of range raises `IndexError`). -/
def pyListGet {α : Type} (l : List α) (i : Int) : Option α :=
  if 0 ≤ i then l.get? i.toNat
  else if 0 ≤ i + (l.length : Int) then l.get? (i + (l.length : Int)).toNat
  else none

/-- `get_chromatogram_by_index`: `try: key = keys[index] except IndexError`
— plain Python subscription, then id lookup. -/
def getChromatogramByIndex (xmlOk : Bytes → Bool) (st : RAState) (index : Int) :
    Except LookupErr Bytes :=
  match pyListGet st.tables.chromatogramKeys index with
  | none => .error .outOfRange
  | some key => getChromatogramById xmlOk st (.inr key)

/-- `spectrum_count`: `len(self.spectrum_offsets) if self.spectrum_offsets
else None`. -/
def spectrumCount (st : RAState) : Option Nat :=
  if st.tables.spectrumOffsets = [] then none else some st.tables.spectrumOffsets.length

/-- `chromatogram_count`, same shape as `spectrum_count`. -/
def chromatogramCount (st : RAState) : Option Nat :=
  if st.tables.chromatogramOffsets = [] then none
  else some st.tables.chromatogramOffsets.length

/-- A trivially succeeding symbolic XML parser. -/
def alwaysOk : Bytes → Bool := fun _ => true

/-- A file whose bytes contain neither `</spectrum>` nor
`</chromatogram>`. -/
def noCloseTagFile : Bytes := cs "<spectrum id=\"a\">"

/-- C2: on an offset after which neither close tag occurs before end of
file, the `_read_to_spec_end` loop never terminates: every number of
iterations of its body leaves it in the same unfinished state (so the
raise after the loop is unreachable), contradicting the claimed format
error.  The file below is such an input at offset 0. -/
theorem C2_no_close_tag_never_terminates :
    (∀ n, extractIter noCloseTagFile n (extractInit noCloseTagFile 0)
        = .inl (extractInit noCloseTagFile 0)) ∧
    extractRun noCloseTagFile 0 = none := by
  constructor
  · intro n
    induction n with
    | zero => rfl
    | succ m ih =>
      have hstep : extractStep noCloseTagFile (extractInit noCloseTagFile 0)
          = .inl (extractInit noCloseTagFile 0) := by decide
      simp only [extractIter, hstep]
      exact ih
  · decide

/-- C7: id lookup converts integer identifiers to their decimal string
form before the table lookup; a missing identifier raises a not-found
error distinct from any parse error; index lookup resolves through the
insertion-ordered key list; an out-of-range index raises a bounds error
distinct from the not-found error. -/
theorem C7_lookup_taxonomy
    (xmlOk : Bytes → Bool) (st : RAState) (i : Int) (k : Bytes) (j1 j2 : Int) :
    getSpectrumById xmlOk st (.inl i) = getSpectrumById xmlOk st (.inr (cs (toString i))) ∧
    (alookup st.tables.spectrumOffsets k = none →
      getSpectrumById xmlOk st (.inr k) = .error (.notFound k)) ∧
    (∀ k2 k3, LookupErr.notFound k2 ≠ LookupErr.parseError k3) ∧
    (∀ h : 0 ≤ j1 ∧ j1 < (st.tables.spectrumKeys.length : Int),
      getSpectrumByIndex xmlOk st j1
        = getSpectrumById xmlOk st
            (.inr (st.tables.spectrumKeys.get ⟨j1.toNat, by omega⟩))) ∧
    (¬ (0 ≤ j2 ∧ j2 < (st.tables.spectrumKeys.length : Int)) →
      getSpectrumByIndex xmlOk st j2 = .error .outOfRange) ∧
    (∀ k2, LookupErr.outOfRange ≠ LookupErr.notFound k2) := by
  refine ⟨rfl, ?_, ?_, ?_, ?_, ?_⟩
  · intro hmiss
    simp [getSpectrumById, idStr, hmiss]
  · intro k2 k3 h
    exact LookupErr.noConfusion h
  · intro h
    simp only [getSpectrumByIndex, dif_pos h]
  · intro h
    simp [getSpectrumByIndex, h]
  · intro k2 h
    exact LookupErr.noConfusion h

/-- Reader state used to witness the lookup claims about spectra. -/
def spec7St : RAState :=
  ⟨cs "<spectrum id=\"a\">x</spectrum>", ⟨[(cs "a", 0)], [], [cs "a"], []⟩⟩

theorem C7_lookup_taxonomy_witness :
    getSpectrumById alwaysOk spec7St (.inl 7)
      = getSpectrumById alwaysOk spec7St (.inr (cs "7")) ∧
    getSpectrumById alwaysOk spec7St (.inr (cs "missing"))
      = .error (.notFound (cs "missing")) ∧
    getSpectrumByIndex alwaysOk spec7St 0
      = getSpectrumById alwaysOk spec7St (.inr (cs "a")) ∧
    getSpectrumByIndex alwaysOk spec7St (-1) = .error .outOfRange :=
  ⟨(C7_lookup_taxonomy alwaysOk spec7St 7 (cs "missing") 0 (-1)).1,
   (C7_lookup_taxonomy alwaysOk spec7St 7 (cs "missing") 0 (-1)).2.1 (by decide),
   (C7_lookup_taxonomy alwaysOk spec7St 7 (cs "missing") 0 (-1)).2.2.2.1
     ⟨by decide, by decide⟩,
   (C7_lookup_taxonomy alwaysOk spec7St 7 (cs "missing") 0 (-1)).2.2.2.2.1 (by decide)⟩

/-- C8: on a reader holding `n ≥ 1` chromatograms,
`get_chromatogram_by_index (-k)` for `1 ≤ k ≤ n` resolves the key at
position `n - k` (Python negative indexing) instead of raising, whereas
`get_spectrum_by_index` raises a bounds error for every negative index. -/
theorem C8_negative_index_asymmetry
    (xmlOk : Bytes → Bool) (st : RAState) (k : Nat) (d : Bytes)
    (hk1 : 1 ≤ k) (hk2 : k ≤ st.tables.chromatogramKeys.length)
    (hid : getChromatogramById xmlOk st
        (.inr (st.tables.chromatogramKeys.get
          ⟨st.tables.chromatogramKeys.length - k, by omega⟩)) = .ok d) :
    getChromatogramByIndex xmlOk st (-(k : Int)) = .ok d ∧
    ∀ (xmlOk2 : Bytes → Bool) (st2 : RAState) (i : Int), i < 0 →
      getSpectrumByIndex xmlOk2 st2 i = .error .outOfRange := by
  constructor
  · have hneg : ¬ (0 ≤ -(k : Int)) := by omega
    have hpos : 0 ≤ -(k : Int) + (st.tables.chromatogramKeys.length : Int) := by omega
    have htn : (-(k : Int) + (st.tables.chromatogramKeys.length : Int)).toNat
        = st.tables.chromatogramKeys.length - k := by omega
    have hlt : st.tables.chromatogramKeys.length - k
        < st.tables.chromatogramKeys.length := by omega
    unfold getChromatogramByIndex pyListGet
    rw [if_neg hneg, if_pos hpos, htn, List.get?_eq_get hlt]
    exact hid
  · intro xmlOk2 st2 i hi
    have hout : ¬ (0 ≤ i ∧ i < (st2.tables.spectrumKeys.length : Int)) := by omega
    simp [getSpectrumByIndex, hout]

/-- Reader state used to witness the negative-index claim. -/
def chromSt : RAState :=
  ⟨cs "<chromatogram id=\"c\">z</chromatogram>", ⟨[], [(cs "c", 0)], [], [cs "c"]⟩⟩

theorem C8_negative_index_asymmetry_witness :
    getChromatogramByIndex alwaysOk chromSt (-1)
      = .ok (cs "<chromatogram id=\"c\">z</chromatogram>") ∧
    getSpectrumByIndex alwaysOk chromSt (-1) = .error .outOfRange :=
  ⟨(C8_negative_index_asymmetry alwaysOk chromSt 1
      (cs "<chromatogram id=\"c\">z</chromatogram>")
      (by decide) (by decide) (by decide)).1,
   (C8_negative_index_asymmetry alwaysOk chromSt 1
      (cs "<chromatogram id=\"c\">z</chromatogram>")
      (by decide) (by decide) (by decide)).2 alwaysOk chromSt (-1) (by decide)⟩

/-! ## Gzip streaming reader (`standardGzip.py`) -/

/-- One element yielded by an `iterparse` end event: its
namespace-qualified tag and optional `id` attribute. -/
structure GzElem where
  tag : Bytes
  id : Option Bytes
deriving DecidableEq

/-- `element.tag.endswith("}spectrum")`. -/
def isSpectrumTag (t : Bytes) : Bool := (cs "\x7dspectrum").isSuffixOf t

/-- `element.tag.endswith("}chromatogram")`. -/
def isChromatogramTag (t : Bytes) : Bool := (cs "\x7dchromatogram").isSuffixOf t

/-- Tail of `SPECTRUM_ID_PATTERN` after the `=`: optional quote, greedy
digits, optional quote, optional `>`, end of string.  Returns the digit
group.  (For this pattern the greedy left-to-right reading agrees with
the regex backtracking semantics: shrinking the digit run only exposes a
digit, which none of the later pieces can consume, and skipping a present
quote leaves a quote that only the other optional quote could consume.) -/
def spectrumIdTail (r : Bytes) : Option Bytes :=
  let r1 := match r with | '"' :: t => t | _ => r
  let digs := r1.takeWhile Char.isDigit
  let r2 := r1.drop digs.length
  let r3 := match r2 with | '"' :: t => t | _ => r2
  let r4 := match r3 with | '>' :: t => t | _ => r3
  if r4 = [] then some digs else none

/-- `SPECTRUM_ID_PATTERN.search`: leftmost `=` whose tail matches. -/
def spectrumIdSearch : Bytes → Option Bytes
  | [] => none
  | c :: rest =>
    if c = '=' then
      match spectrumIdTail rest with
      | some g => some g
      | none => spectrumIdSearch rest
    else spectrumIdSearch rest

/-- The per-element condition of the gzip `get_spectrum_by_id` loop: a
spectrum end tag whose truthy id matches exactly, or whose trailing
numeric component matches. -/
def gzMatchesSpectrumId (ident : Bytes) (e : GzElem) : Bool :=
  isSpectrumTag e.tag &&
    match e.id with
    | none => false
    | some eid =>
      !eid.isEmpty &&
        (eid == ident ||
          match spectrumIdSearch eid with
          | some g => g == ident
          | none => false)

/-- The forward scan of the gzip `get_spectrum_by_id`. -/
def gzipFindSpectrum (ident : Bytes) : List GzElem → Except LookupErr GzElem
  | [] => .error (.notFound ident)
  | e :: rest =>
    if gzMatchesSpectrumId ident e then .ok e else gzipFindSpectrum ident rest

/-- `StandardGzip.get_spectrum_by_id`. -/
def gzipGetSpectrumById (file : List GzElem) (ident0 : Int ⊕ Bytes) :
    Except LookupErr GzElem :=
  gzipFindSpectrum (idStr ident0) file

/-- Counting loop shared by the gzip count properties. -/
def gzipCountGo (p : Bytes → Bool) : List GzElem → Nat → Nat
  | [], acc => acc
  | e :: rest, acc => gzipCountGo p rest (if p e.tag then acc + 1 else acc)

/-- `StandardGzip.spectrum_count`: full forward scan. -/
def gzipSpectrumCount (file : List GzElem) : Option Nat :=
  some (gzipCountGo isSpectrumTag file 0)

/-- `StandardGzip.chromatogram_count`: full forward scan. -/
def gzipChromatogramCount (file : List GzElem) : Option Nat :=
  some (gzipCountGo isChromatogramTag file 0)

/-- C9: in gzip streaming mode `get_spectrum_by_id` returns the first
spectrum element matching by exact id or, failing that on the element, by
its trailing numeric component, so identifier "19" can return the
spectrum with id "scan=19"; random-access mode consults only the exact
key and raises not-found. -/
theorem C9_gzip_id_fallback_matching
    (pre post : List GzElem) (e : GzElem) (ident : Bytes)
    (xmlOk : Bytes → Bool) (st : RAState) :
    ((∀ e2 ∈ pre, gzMatchesSpectrumId ident e2 = false) →
      gzMatchesSpectrumId ident e = true →
      gzipGetSpectrumById (pre ++ e :: post) (.inr ident) = .ok e) ∧
    (alookup st.tables.spectrumOffsets ident = none →
      getSpectrumById xmlOk st (.inr ident) = .error (.notFound ident)) := by
  constructor
  · intro hpre he
    unfold gzipGetSpectrumById idStr
    induction pre with
    | nil => simp [gzipFindSpectrum, he]
    | cons e2 rest ih =>
      have h2 : gzMatchesSpectrumId ident e2 = false := hpre e2 (by simp)
      simp only [List.cons_append, gzipFindSpectrum, h2]
      exact ih (fun e3 h3 => hpre e3 (by simp [h3]))
  · intro hmiss
    simp [getSpectrumById, idStr, hmiss]

/-- Random-access table holding only the key "scan=19" (for the C9
witness). -/
def scanSt : RAState :=
  ⟨cs "<spectrum id=\"scan=19\">x</spectrum>",
   ⟨[(cs "scan=19", 0)], [], [cs "scan=19"], []⟩⟩

theorem C9_gzip_id_fallback_matching_witness :
    gzipGetSpectrumById [⟨cs "\x7bns\x7dspectrum", some (cs "scan=19")⟩]
        (.inr (cs "19"))
      = .ok ⟨cs "\x7bns\x7dspectrum", some (cs "scan=19")⟩ ∧
    getSpectrumById alwaysOk scanSt (.inr (cs "19"))
      = .error (.notFound (cs "19")) :=
  ⟨(C9_gzip_id_fallback_matching [] [] ⟨cs "\x7bns\x7dspectrum", some (cs "scan=19")⟩
      (cs "19") alwaysOk scanSt).1 (by simp) (by decide),
   (C9_gzip_id_fallback_matching [] [] ⟨cs "\x7bns\x7dspectrum", some (cs "scan=19")⟩
      (cs "19") alwaysOk scanSt).2 (by decide)⟩

/-- Unfolding of the gzip counting loop. -/
theorem gzipCountGo_eq (p : Bytes → Bool) (l : List GzElem) (acc : Nat) :
    gzipCountGo p l acc = acc + l.countP (fun e => p e.tag) := by
  induction l generalizing acc with
  | nil => simp [gzipCountGo]
  | cons e rest ih =>
    by_cases hp : p e.tag
    · simp [gzipCountGo, hp, ih, List.countP_cons]
      omega
    · simp [gzipCountGo, hp, ih, List.countP_cons]

/-- C10: on random-access readers the counts are `none` (never `some 0`)
exactly when the corresponding offset table is empty and its length
otherwise; in gzip streaming mode both counts are the number of matching
elements found by a full forward scan, which can be `0`. -/
theorem C10_count_semantics (st : RAState) (gz : List GzElem) :
    (st.tables.spectrumOffsets = [] → spectrumCount st = none) ∧
    (st.tables.spectrumOffsets ≠ [] →
      spectrumCount st = some st.tables.spectrumOffsets.length) ∧
    (st.tables.chromatogramOffsets = [] → chromatogramCount st = none) ∧
    (st.tables.chromatogramOffsets ≠ [] →
      chromatogramCount st = some st.tables.chromatogramOffsets.length) ∧
    gzipSpectrumCount gz = some (gz.countP (fun e => isSpectrumTag e.tag)) ∧
    gzipChromatogramCount gz = some (gz.countP (fun e => isChromatogramTag e.tag)) := by
  refine ⟨?_, ?_, ?_, ?_, ?_, ?_⟩
  · intro h; simp [spectrumCount, h]
  · intro h; simp [spectrumCount, h]
  · intro h; simp [chromatogramCount, h]
  · intro h; simp [chromatogramCount, h]
  · simp [gzipSpectrumCount, gzipCountGo_eq]
  · simp [gzipChromatogramCount, gzipCountGo_eq]

/-- Reader state with no spectra and one chromatogram (for the C10
witness). -/
def c10St : RAState :=
  ⟨cs "<chromatogram id=\"c\">z</chromatogram>", ⟨[], [(cs "c", 0)], [], [cs "c"]⟩⟩

theorem C10_count_semantics_witness :
    spectrumCount c10St = none ∧
    chromatogramCount c10St = some 1 ∧
    gzipSpectrumCount [] = some 0 :=
  ⟨(C10_count_semantics c10St []).1 (by decide),
   (C10_count_semantics c10St []).2.2.2.1 (by decide),
   (C10_count_semantics c10St []).2.2.2.2.1⟩

/-! ## Byte-offset indexer (`_build_index` and helpers) -/

/-- Python `\s` on ASCII bytes. -/
def isPySpace (c : Char) : Bool :=
  c = ' ' || c = '\t' || c = '\n' || c = '\r' || c = Char.ofNat 11 || c = Char.ofNat 12

/-- First position `q ≥ p` holding character `c`. -/
def findCharFrom (s : Bytes) (c : Char) (p : Nat) : Option Nat :=
  ((s.drop p).findIdx? (fun x => x = c)).map (p + ·)

/-- Literal match at an absolute position. -/
def litAt (s : Bytes) (p : Nat) (lit : Bytes) : Bool :=
  lit.isPrefixOf (s.drop p)

/-- One backtracking candidate of `[^>]*id="([^"]*)"`: literal `id="` at
`cur + d`, then the group runs to the next quote. -/
def idAttrAt (chunk : Bytes) (cur d : Nat) : Option (Bytes × Nat) :=
  if litAt chunk (cur + d) (cs "id=\"") then
    match findCharFrom chunk '"' (cur + d + 4) with
    | some q => some ((chunk.drop (cur + d + 4)).take (q - (cur + d + 4)), q + 1)
    | none => none
  else none

/-- Greedy backtracking of `[^>]*id="([^"]*)"`: try the largest candidate
offset within the non-`>` window first. -/
def idAttrScan (chunk : Bytes) (cur : Nat) : Nat → Option (Bytes × Nat)
  | 0 => idAttrAt chunk cur 0
  | d + 1 =>
    match idAttrAt chunk cur (d + 1) with
    | some r => some r
    | none => idAttrScan chunk cur d

/-- Match of `<\s*TAG[^>]*id="([^"]*)"` anchored at position `i`
(`TAG` = `spectrum` or `chromatogram`).  Returns the id group and the
position just past the match. -/
def matchTagStartAt (tag : Bytes) (chunk : Bytes) (i : Nat) : Option (Bytes × Nat) :=
  if chunk[i]? = some '<' then
    let w := ((chunk.drop (i + 1)).takeWhile isPySpace).length
    let j := i + 1 + w
    if litAt chunk j tag then
      let cur := j + tag.length
      let win := ((chunk.drop cur).takeWhile (fun c => !(c = '>'))).length
      idAttrScan chunk cur win
    else none
  else none

/-- `re.finditer` loop over one chunk: try each start position left to
right, resuming after the end of each (always non-empty) match.  The fuel
starts at `chunk.length + 1`, enough since the position strictly grows. -/
def finditerGo (tag chunk : Bytes) : Nat → Nat → List (Nat × Bytes)
  | 0, _ => []
  | fuel + 1, i =>
    if i < chunk.length then
      match matchTagStartAt tag chunk i with
      | some r => (i, r.1) :: finditerGo tag chunk fuel (max (i + 1) r.2)
      | none => finditerGo tag chunk fuel (i + 1)
    else []

/-- All matches `(start, id)` of the element-start pattern in a chunk. -/
def finditerTag (tag : Bytes) (chunk : Bytes) : List (Nat × Bytes) :=
  finditerGo tag chunk (chunk.length + 1) 0

/-- Match of `<\s*TAGList\s*count="([^"]*)"` at the head of a suffix. -/
def matchCountHead (listTag : Bytes) (s : Bytes) : Option Bytes :=
  match s with
  | '<' :: rest =>
    let r1 := rest.dropWhile isPySpace
    if listTag.isPrefixOf r1 then
      let r2 := (r1.drop listTag.length).dropWhile isPySpace
      if (cs "count=\"").isPrefixOf r2 then
        let r3 := r2.drop 7
        let g := r3.takeWhile (fun c => !(c = '"'))
        if g.length < r3.length then some g else none
      else none
    else none
  | _ => none

/-- `re.search` of the count pattern: first matching start position. -/
def searchCountFirst (listTag : Bytes) : Bytes → Option Bytes
  | [] => none
  | c :: rest =>
    match matchCountHead listTag (c :: rest) with
    | some g => some g
    | none => searchCountFirst listTag rest

/-- Value of a non-empty all-digit regex group. -/
def digitsToNat (s : Bytes) : Nat :=
  s.foldl (fun n c => n * 10 + (c.toNat - 48)) 0

/-- Errors raised during index construction (all `ValueError` in the
source; the constructors record which check fired). -/
inductive IdxErr
  | badInt
  | dupSpectrumId (id : Bytes)
  | dupChromatogramId (id : Bytes)
  | dupSpectrumOffsets
  | dupChromatogramOffsets
  | sharedOffsets
deriving DecidableEq

/-- Python `int(str)` over an arbitrary `([^"]*)` count group: strip
whitespace, optional sign, then a non-empty digit run. -/
def pyIntVal (s : Bytes) : Option Int :=
  let t := (s.dropWhile isPySpace).reverse.dropWhile isPySpace |>.reverse
  let core := match t with
    | '-' :: u => some (true, u)
    | '+' :: u => some (false, u)
    | u => some (false, u)
  match core with
  | some (neg, u) =>
    if !u.isEmpty && u.all Char.isDigit then
      some (if neg then -(digitsToNat u : Int) else (digitsToNat u : Int))
    else none
  | none => none

/-- `int(...)` of a searched count group, keeping the old count when the
pattern did not match. -/
def countFrom (g : Option Bytes) (old : Int) : Except IdxErr Int :=
  match g with
  | none => .ok old
  | some s =>
    match pyIntVal s with
    | some n => .ok n
    | none => .error .badInt

/-- Python `l[-n:]`. -/
def takeLast (n : Nat) (l : Bytes) : Bytes := l.drop (l.length - n)

/-- Record every match of one chunk at its absolute offset. -/
def addPositions (d : List (Bytes × Nat)) (off : Nat) (ms : List (Nat × Bytes)) :
    List (Bytes × Nat) :=
  ms.foldl (fun d2 m => dinsert d2 m.2 (off + m.1)) d

/-- Accumulator of `get_data_indices`: the two position dicts and the two
declared counts. -/
structure ScanAcc where
  chromPositions : List (Bytes × Nat)
  specPositions : List (Bytes × Nat)
  chromCnt : Int
  specCnt : Int
deriving DecidableEq

/-- The chunked whole-file scan of `get_data_indices`: read 8 KiB chunks,
prepend the last 100 bytes of the previous (combined) chunk, record all
element-start matches at absolute offsets, and refresh the declared
counts.  The fuel starts at `file.length + 1`, enough since the position
strictly grows. -/
def scanLoop (file : Bytes) : Nat → Nat → Bytes → ScanAcc → Except IdxErr ScanAcc
  | 0, _, _, acc => .ok acc
  | fuel + 1, p, prev, acc =>
    let raw := (file.drop p).take 8192
    if raw.isEmpty then .ok acc
    else
      let co := if 0 < prev.length then (takeLast 100 prev ++ raw, p - 100) else (raw, p)
      let cpos := addPositions acc.chromPositions co.2 (finditerTag (cs "chromatogram") co.1)
      let spos := addPositions acc.specPositions co.2 (finditerTag (cs "spectrum") co.1)
      match countFrom (searchCountFirst (cs "chromatogramList") co.1) acc.chromCnt with
      | .error e => .error e
      | .ok ccnt =>
        match countFrom (searchCountFirst (cs "spectrumList") co.1) acc.specCnt with
        | .error e => .error e
        | .ok scnt => scanLoop file fuel (p + raw.length) co.1 ⟨cpos, spos, ccnt, scnt⟩

/-- `_build_index_from_scratch`: run the scan with fresh local dicts, then
update the reader's tables and rebuild both key lists.  (The declared
versus found count comparison only prints a warning and is not
modelled.) -/
def buildIndexFromScratch (file : Bytes) (t : Tables) : Except IdxErr Tables :=
  match scanLoop file (file.length + 1) 0 [] ⟨[], [], 0, 0⟩ with
  | .error e => .error e
  | .ok acc =>
    let chrom := dupdate t.chromatogramOffsets acc.chromPositions
    let spec := dupdate t.spectrumOffsets acc.specPositions
    .ok ⟨spec, chrom, spec.map Prod.fst, chrom.map Prod.fst⟩

/-- `for line in seeker`: split on newlines, keeping them. -/
def splitLinesGo : Nat → Bytes → List Bytes
  | 0, _ => []
  | _, [] => []
  | fuel + 1, s =>
    let line := s.takeWhile (fun c => !(c = '\n'))
    if line.length = s.length then [s]
    else (line ++ ['\n']) :: splitLinesGo fuel (s.drop (line.length + 1))

/-- Lines of a byte string (trailing newlines kept, as Python yields). -/
def splitLines (s : Bytes) : List Bytes := splitLinesGo (s.length + 1) s

/-- Python `pat in line`. -/
def containsSub (pat : Bytes) : Bytes → Bool
  | [] => pat.isPrefixOf []
  | c :: rest => pat.isPrefixOf (c :: rest) || containsSub pat rest

/-- Match of `<index name="([^"]*)">` at the head of a suffix. -/
def indexNameHead (s : Bytes) : Option Bytes :=
  if (cs "<index name=\"").isPrefixOf s then
    let r := s.drop 13
    let g := r.takeWhile (fun c => !(c = '"'))
    if (cs "\">").isPrefixOf (r.drop g.length) then some g else none
  else none

/-- `index_name_pattern.search` on one line. -/
def searchIndexName : Bytes → Option Bytes
  | [] => none
  | c :: rest =>
    match indexNameHead (c :: rest) with
    | some g => some g
    | none => searchIndexName rest

/-- Match of `<offset idRef="([^"]*)"[^>]*>(\d+)</offset>` at the head of
a suffix: id group to the next quote, skip to the first `>`, then a
non-empty digit group followed by the close literal. -/
def offsetEntryHead (s : Bytes) : Option (Bytes × Nat) :=
  if (cs "<offset idRef=\"").isPrefixOf s then
    let r1 := s.drop 15
    let g1 := r1.takeWhile (fun c => !(c = '"'))
    if g1.length < r1.length then
      let r2 := r1.drop (g1.length + 1)
      let w := r2.takeWhile (fun c => !(c = '>'))
      if w.length < r2.length then
        let r3 := r2.drop (w.length + 1)
        let digs := r3.takeWhile Char.isDigit
        if !digs.isEmpty && (cs "</offset>").isPrefixOf (r3.drop digs.length) then
          some (g1, digitsToNat digs)
        else none
      else none
    else none
  else none

/-- `offset_pattern.search` on one line. -/
def searchOffsetEntry : Bytes → Option (Bytes × Nat)
  | [] => none
  | c :: rest =>
    match offsetEntryHead (c :: rest) with
    | some r => some r
    | none => searchOffsetEntry rest

/-- The line loop of `_parse_index_section` as the list of
`(section, idRef, offset)` entries it hands to `_add_offset_entry`,
stopping at a `</indexList>` line and tracking the current (truthy)
index-name section. -/
def parseIndexLines : List Bytes → Option Bytes → List (Bytes × Bytes × Nat)
  | [], _ => []
  | line :: rest, current =>
    if containsSub (cs "</indexList>") line then []
    else
      match searchIndexName line with
      | some nm => parseIndexLines rest (some nm)
      | none =>
        match searchOffsetEntry line, current with
        | some e, some cur =>
          if cur.isEmpty then parseIndexLines rest current
          else (cur, e.1, e.2) :: parseIndexLines rest current
        | _, _ => parseIndexLines rest current

/-- `_add_offset_entry`: duplicate-id check, then append; sections other
than `spectrum` and `chromatogram` are ignored. -/
def addOffsetEntry (t : Tables) (e : Bytes × Bytes × Nat) : Except IdxErr Tables :=
  if e.1 = cs "spectrum" then
    if (alookup t.spectrumOffsets e.2.1).isSome then .error (.dupSpectrumId e.2.1)
    else .ok { t with spectrumOffsets := t.spectrumOffsets ++ [(e.2.1, e.2.2)] }
  else if e.1 = cs "chromatogram" then
    if (alookup t.chromatogramOffsets e.2.1).isSome then .error (.dupChromatogramId e.2.1)
    else .ok { t with chromatogramOffsets := t.chromatogramOffsets ++ [(e.2.1, e.2.2)] }
  else .ok t

/-- Feed the parsed entries to `_add_offset_entry`, stopping at the first
raise and keeping the tables populated so far (as the exception does). -/
def foldEntries : List (Bytes × Bytes × Nat) → Tables → Tables × Option IdxErr
  | [], t => (t, none)
  | e :: rest, t =>
    match addOffsetEntry t e with
    | .error err => (t, some err)
    | .ok t2 => foldEntries rest t2

/-- `len(values) != len(set(values))`: some value occurs twice. -/
def hasDupNat : List Nat → Bool
  | [] => false
  | v :: rest => rest.contains v || hasDupNat rest

/-- `_validate_unique_offsets`: I1 within each table, then I2 across. -/
def validateUniqueOffsets (t : Tables) : Option IdxErr :=
  let sv := t.spectrumOffsets.map Prod.snd
  let cv := t.chromatogramOffsets.map Prod.snd
  if hasDupNat sv then some .dupSpectrumOffsets
  else if hasDupNat cv then some .dupChromatogramOffsets
  else if sv.any (fun o => cv.contains o) then some .sharedOffsets
  else none

/-- The key-list part of `_finalize_index`. -/
def finalizeKeys (t : Tables) : Tables :=
  { t with spectrumKeys := t.spectrumOffsets.map Prod.fst,
           chromatogramKeys := t.chromatogramOffsets.map Prod.fst }

/-- Fresh tables at construction time. -/
def emptyTables : Tables := ⟨[], [], [], []⟩

/-- `_parse_index_section` followed by `_finalize_index`, returning the
reader's tables as mutated so far plus the raise, if any. -/
def fastAttempt (file : Bytes) (off : Nat) : Tables × Option IdxErr :=
  let fe := foldEntries (parseIndexLines (splitLines (file.drop off)) none) emptyTables
  match fe.2 with
  | some e => (fe.1, some e)
  | none =>
    let t := finalizeKeys fe.1
    match validateUniqueOffsets t with
    | some e => (t, some e)
    | none => (t, none)

/-- Match of `<indexListOffset>([0-9]*)</indexListOffset>` at the head of
a suffix (the digit group may be empty). -/
def indexListOffsetHead (s : Bytes) : Option Bytes :=
  if (cs "<indexListOffset>").isPrefixOf s then
    let r := s.drop 17
    let digs := r.takeWhile Char.isDigit
    if (cs "</indexListOffset>").isPrefixOf (r.drop digs.length) then some digs
    else none
  else none

/-- `INDEX_LIST_OFFSET_PATTERN.search` over the footer. -/
def searchIndexListOffset : Bytes → Option Bytes
  | [] => none
  | c :: rest =>
    match indexListOffsetHead (c :: rest) with
    | some g => some g
    | none => searchIndexListOffset rest

/-- `_find_index_offset`: search the last 10 KiB; `int("")` on an empty
digit group raises. -/
def findIndexOffset (file : Bytes) : Except IdxErr (Option Nat) :=
  let footer := file.drop (file.length - 10240)
  match searchIndexListOffset footer with
  | none => .ok none
  | some digs => if digs.isEmpty then .error .badInt else .ok (some (digitsToNat digs))

/-- `_build_index`: fast path when a non-zero `indexListOffset` is found
(Python treats offset `0` as falsy), falling back to the from-scratch
scan — seeded with the tables the fast path already populated — whenever
the fast path raises. -/
def buildIndex (file : Bytes) (fromScratch : Bool) : Except IdxErr Tables :=
  if fromScratch then buildIndexFromScratch file emptyTables
  else
    match findIndexOffset file with
    | .error e => .error e
    | .ok none => buildIndexFromScratch file emptyTables
    | .ok (some off) =>
      if off = 0 then buildIndexFromScratch file emptyTables
      else
        let fa := fastAttempt file off
        match fa.2 with
        | none => .ok fa.1
        | some _ => buildIndexFromScratch file fa.1

/-- Invariant I3's pattern check: the bytes start with `<`, optional
whitespace, then the tag name (`<\s*spectrum` or `<\s*chromatogram`). -/
def tagHeadOk (tag : Bytes) (s : Bytes) : Bool :=
  match s with
  | c :: rest => c = '<' && tag.isPrefixOf (rest.dropWhile isPySpace)
  | [] => false

/-- Indexed file whose embedded index lists an entry (`a` at offset 8)
different from the element the body holds (`b` at offset 8). -/
def lyingIndexFile : Bytes :=
  cs "<?xml?>\n<spectrum id=\"b\">x</spectrum>\n<indexList>\n<index name=\"spectrum\">\n<offset idRef=\"a\">8</offset>\n</indexList>\n<indexListOffset>38</indexListOffset>\n"

/-- Indexed file whose embedded index points entry `a` at offset 0, the
`<?xml?>` prolog rather than a `<spectrum` start. -/
def wrongTargetFile : Bytes :=
  cs "<?xml?>\n<spectrum id=\"b\">x</spectrum>\n<indexList>\n<index name=\"spectrum\">\n<offset idRef=\"a\">0</offset>\n</indexList>\n<indexListOffset>38</indexListOffset>\n"

/-- Indexed file whose embedded index holds two `<offset>` entries sharing
byte offset 8 (an I1 violation). -/
def dupOffsetFile : Bytes :=
  cs "<?xml?>\n<spectrum id=\"b\">x</spectrum>\n<indexList>\n<index name=\"spectrum\">\n<offset idRef=\"a\">8</offset>\n<offset idRef=\"b\">8</offset>\n</indexList>\n<indexListOffset>38</indexListOffset>\n"

/-- Indexed file whose embedded index agrees exactly with the body. -/
def goodIndexFile : Bytes :=
  cs "<?xml?>\n<spectrum id=\"s1\">x</spectrum>\n<indexList>\n<index name=\"spectrum\">\n<offset idRef=\"s1\">8</offset>\n</indexList>\n<indexListOffset>39</indexListOffset>\n"

/-- C1 counterexample: on this file two embedded `<offset>` entries share
byte offset 8 (an I1 violation); the fast path detects it and raises, but
`_build_index` catches the raise and rebuilds from scratch, so reader
construction succeeds — no FormatError reaches the caller, contrary to
the claim that I1/I2 violations are fatal and not recovered by falling
back. -/
theorem C1_counterexample_dup_offsets_not_fatal :
    findIndexOffset dupOffsetFile = .ok (some 38) ∧
    (fastAttempt dupOffsetFile 38).2 = some .dupSpectrumOffsets ∧
    buildIndex dupOffsetFile false
      = .ok ⟨[(cs "a", 8), (cs "b", 8)], [], [cs "a", cs "b"], []⟩ := by
  decide

/-- C1 (amended): an I1/I2 violation in the embedded index raises inside
the fast path, but `_build_index` catches every fast-path error and falls
back to the from-scratch indexer seeded with the tables the fast path
already populated; construction itself reports whatever the fallback
reports, never the fast-path error. -/
theorem C1_amended_fastpath_error_recovered
    (file : Bytes) (off : Nat) (t : Tables) (e : IdxErr)
    (hfind : findIndexOffset file = .ok (some off)) (hoff : off ≠ 0)
    (hfast : fastAttempt file off = (t, some e)) :
    buildIndex file false = buildIndexFromScratch file t := by
  simp [buildIndex, hfind, hoff, hfast]

theorem C1_amended_fastpath_error_recovered_witness :
    buildIndex dupOffsetFile false
      = buildIndexFromScratch dupOffsetFile
          ⟨[(cs "a", 8), (cs "b", 8)], [], [cs "a", cs "b"], []⟩ :=
  C1_amended_fastpath_error_recovered dupOffsetFile 38
    ⟨[(cs "a", 8), (cs "b", 8)], [], [cs "a", cs "b"], []⟩ .dupSpectrumOffsets
    (by decide) (by decide) (by decide)

/-- C4 counterexample: this file carries a valid `<indexListOffset>`
footer and its embedded index parses cleanly, yet the fast path's tables
(entry `a` at 8, trusted from the index) differ from the fallback scan's
tables (entry `b` at 8, found in the body) — the two indexers do not
agree on every file with a valid footer. -/
theorem C4_counterexample_fast_and_fallback_disagree :
    findIndexOffset lyingIndexFile = .ok (some 38) ∧
    fastAttempt lyingIndexFile 38 = (⟨[(cs "a", 8)], [], [cs "a"], []⟩, none) ∧
    buildIndex lyingIndexFile false = .ok ⟨[(cs "a", 8)], [], [cs "a"], []⟩ ∧
    buildIndexFromScratch lyingIndexFile emptyTables
      = .ok ⟨[(cs "b", 8)], [], [cs "b"], []⟩ ∧
    (⟨[(cs "a", 8)], [], [cs "a"], []⟩ : Tables) ≠ ⟨[(cs "b", 8)], [], [cs "b"], []⟩ := by
  decide

/-- C5 counterexample: this file carries a valid footer whose index entry
sends `a` to offset 0; the fast path stores that offset unchecked, and
the file's bytes at offset 0 (`<?xml?>`) match neither `<\s*spectrum` nor
`<\s*chromatogram`, violating I3 for fast-path tables. -/
theorem C5_counterexample_fastpath_offset_not_element_start :
    findIndexOffset wrongTargetFile = .ok (some 38) ∧
    buildIndex wrongTargetFile false = .ok ⟨[(cs "a", 0)], [], [cs "a"], []⟩ ∧
    alookup [(cs "a", 0)] (cs "a") = some 0 ∧
    tagHeadOk (cs "spectrum") (wrongTargetFile.drop 0) = false ∧
    tagHeadOk (cs "chromatogram") (wrongTargetFile.drop 0) = false := by
  decide

/-! ## Dictionary lemmas -/

theorem alookup_eq_none_iff (d : List (Bytes × Nat)) (k : Bytes) :
    alookup d k = none ↔ k ∉ d.map Prod.fst := by
  induction d with
  | nil => simp [alookup]
  | cons kv rest ih =>
    obtain ⟨k', v⟩ := kv
    by_cases h : k' = k
    · subst h
      simp [alookup]
    · simp [alookup, h, ih, Ne.symm h]

theorem mem_dinsert (d : List (Bytes × Nat)) (k' : Bytes) (v : Nat) (k : Bytes) (o : Nat) :
    (k, o) ∈ dinsert d k' v → (k, o) ∈ d ∨ (k = k' ∧ o = v) := by
  induction d with
  | nil =>
    intro h
    right
    simpa [dinsert] using h
  | cons kv rest ih =>
    obtain ⟨k2, v2⟩ := kv
    intro h
    by_cases hk : k2 = k'
    · subst hk
      simp only [dinsert, if_true, eq_self_iff_true, List.mem_cons] at h
      rcases h with h | h
      · right
        rw [Prod.mk.injEq] at h
        exact ⟨h.1, h.2⟩
      · left
        exact List.mem_cons_of_mem _ h
    · simp only [dinsert, if_neg hk, List.mem_cons] at h
      rcases h with h | h
      · left
        simp [h]
      · rcases ih h with h2 | h2
        · left
          exact List.mem_cons_of_mem _ h2
        · right
          exact h2

theorem dinsert_keys (d : List (Bytes × Nat)) (k : Bytes) (v : Nat) :
    (dinsert d k v).map Prod.fst
      = if k ∈ d.map Prod.fst then d.map Prod.fst else d.map Prod.fst ++ [k] := by
  induction d with
  | nil => simp [dinsert]
  | cons kv rest ih =>
    obtain ⟨k2, v2⟩ := kv
    by_cases hk : k2 = k
    · subst hk
      simp [dinsert]
    · by_cases hm : k ∈ rest.map Prod.fst <;>
        simp [dinsert, hk, ih, Ne.symm hk, hm]

theorem dinsert_keys_nodup (d : List (Bytes × Nat)) (k : Bytes) (v : Nat)
    (hd : (d.map Prod.fst).Nodup) : ((dinsert d k v).map Prod.fst).Nodup := by
  rw [dinsert_keys]
  by_cases h : k ∈ d.map Prod.fst
  · simpa [h]
  · simp only [h, if_false]
    exact List.nodup_append.mpr ⟨hd, List.nodup_singleton k, by simpa using h⟩

theorem dupdate_keys_nodup (l : List (Bytes × Nat)) :
    ∀ d, (d.map Prod.fst).Nodup → ((dupdate d l).map Prod.fst).Nodup := by
  induction l with
  | nil =>
    intro d hd
    simpa [dupdate]
  | cons x rest ih =>
    intro d hd
    exact ih (dinsert d x.1 x.2) (dinsert_keys_nodup _ _ _ hd)

theorem mem_dupdate (l : List (Bytes × Nat)) :
    ∀ d k o, (k, o) ∈ dupdate d l → (k, o) ∈ d ∨ (k, o) ∈ l := by
  induction l with
  | nil =>
    intro d k o h
    left
    simpa [dupdate] using h
  | cons x rest ih =>
    intro d k o h
    rcases ih (dinsert d x.1 x.2) k o h with h2 | h2
    · rcases mem_dinsert _ _ _ _ _ h2 with h3 | h3
      · left
        exact h3
      · right
        simp [show (k, o) = x from Prod.ext h3.1 h3.2]
    · right
      exact List.mem_cons_of_mem _ h2

/-- Entries of one section of the parsed embedded index, in order. -/
def sectionPairs (sec : Bytes) (entries : List (Bytes × Bytes × Nat)) : List (Bytes × Nat) :=
  entries.filterMap (fun e => if e.1 = sec then some (e.2.1, e.2.2) else none)

theorem foldEntries_append (entries : List (Bytes × Bytes × Nat)) :
    ∀ (s0 c0 : List (Bytes × Nat)) (sk ck : List Bytes),
    ((s0 ++ sectionPairs (cs "spectrum") entries).map Prod.fst).Nodup →
    ((c0 ++ sectionPairs (cs "chromatogram") entries).map Prod.fst).Nodup →
    foldEntries entries ⟨s0, c0, sk, ck⟩
      = (⟨s0 ++ sectionPairs (cs "spectrum") entries,
          c0 ++ sectionPairs (cs "chromatogram") entries, sk, ck⟩, none) := by
  have hne : ¬ (cs "spectrum" = cs "chromatogram") := by decide
  have hne2 : ¬ (cs "chromatogram" = cs "spectrum") := by decide
  induction entries with
  | nil =>
    intro s0 c0 sk ck _ _
    simp [foldEntries, sectionPairs]
  | cons e rest ih =>
    intro s0 c0 sk ck hs hc
    obtain ⟨sec, id, off⟩ := e
    by_cases h1 : sec = cs "spectrum"
    · subst h1
      have hps : sectionPairs (cs "spectrum") ((cs "spectrum", id, off) :: rest)
          = (id, off) :: sectionPairs (cs "spectrum") rest := by
        simp [sectionPairs]
      have hpc : sectionPairs (cs "chromatogram") ((cs "spectrum", id, off) :: rest)
          = sectionPairs (cs "chromatogram") rest := by
        simp [sectionPairs, hne]
      rw [hps] at hs ⊢
      rw [hpc] at hc ⊢
      have hid : id ∉ s0.map Prod.fst := by
        rw [List.map_append] at hs
        have hnd := List.nodup_append.mp hs
        intro hmem
        exact hnd.2.2 hmem (by simp)
      have hlk : alookup s0 id = none := (alookup_eq_none_iff s0 id).mpr hid
      have hadd : addOffsetEntry ⟨s0, c0, sk, ck⟩ (cs "spectrum", id, off)
          = .ok ⟨s0 ++ [(id, off)], c0, sk, ck⟩ := by
        simp [addOffsetEntry, hlk]
      simp only [foldEntries, hadd]
      rw [ih (s0 ++ [(id, off)]) c0 sk ck (by simpa using hs) hc]
      simp
    · by_cases h2 : sec = cs "chromatogram"
      · subst h2
        have hps : sectionPairs (cs "spectrum") ((cs "chromatogram", id, off) :: rest)
            = sectionPairs (cs "spectrum") rest := by
          simp [sectionPairs, hne2]
        have hpc : sectionPairs (cs "chromatogram") ((cs "chromatogram", id, off) :: rest)
            = (id, off) :: sectionPairs (cs "chromatogram") rest := by
          simp [sectionPairs]
        rw [hps] at hs ⊢
        rw [hpc] at hc ⊢
        have hid : id ∉ c0.map Prod.fst := by
          rw [List.map_append] at hc
          have hnd := List.nodup_append.mp hc
          intro hmem
          exact hnd.2.2 hmem (by simp)
        have hlk : alookup c0 id = none := (alookup_eq_none_iff c0 id).mpr hid
        have hadd : addOffsetEntry ⟨s0, c0, sk, ck⟩ (cs "chromatogram", id, off)
            = .ok ⟨s0, c0 ++ [(id, off)], sk, ck⟩ := by
          simp [addOffsetEntry, hne2, hlk]
        simp only [foldEntries, hadd]
        rw [ih s0 (c0 ++ [(id, off)]) sk ck hs (by simpa using hc)]
        simp
      · have hps : sectionPairs (cs "spectrum") ((sec, id, off) :: rest)
            = sectionPairs (cs "spectrum") rest := by
          simp [sectionPairs, h1]
        have hpc : sectionPairs (cs "chromatogram") ((sec, id, off) :: rest)
            = sectionPairs (cs "chromatogram") rest := by
          simp [sectionPairs, h2]
        rw [hps] at hs ⊢
        rw [hpc] at hc ⊢
        have hadd : addOffsetEntry ⟨s0, c0, sk, ck⟩ (sec, id, off)
            = .ok ⟨s0, c0, sk, ck⟩ := by
          simp [addOffsetEntry, h1, h2]
        simp only [foldEntries, hadd]
        exact ih s0 c0 sk ck hs hc


theorem scratch_ok_shape (file : Bytes) (t0 T : Tables)
    (h : buildIndexFromScratch file t0 = .ok T) :
    T.spectrumKeys = T.spectrumOffsets.map Prod.fst ∧
    T.chromatogramKeys = T.chromatogramOffsets.map Prod.fst ∧
    ∃ acc, scanLoop file (file.length + 1) 0 [] ⟨[], [], 0, 0⟩ = .ok acc ∧
      T.spectrumOffsets = dupdate t0.spectrumOffsets acc.specPositions ∧
      T.chromatogramOffsets = dupdate t0.chromatogramOffsets acc.chromPositions := by
  unfold buildIndexFromScratch at h
  cases hs : scanLoop file (file.length + 1) 0 [] ⟨[], [], 0, 0⟩ with
  | error e =>
    rw [hs] at h
    exact absurd h (by simp)
  | ok acc =>
    rw [hs] at h
    have h2 := Except.ok.inj h
    subst h2
    exact ⟨rfl, rfl, acc, rfl, rfl, rfl⟩

/-- C4 (amended): for every file whose valid `<indexListOffset>` footer
points at an embedded index that is accurate — its spectrum and
chromatogram `<offset>` entries are exactly the fallback scan's tables,
and offsets satisfy I1/I2 — the fast path succeeds and reader
construction produces exactly the fallback indexer's tables.  (The
unconditional claim fails: the fast path trusts the embedded index,
which can disagree with the body.) -/
theorem C4_amended_accurate_index_fast_equals_fallback
    (file : Bytes) (off : Nat) (T : Tables)
    (hfind : findIndexOffset file = .ok (some off)) (hoff : off ≠ 0)
    (hscr : buildIndexFromScratch file emptyTables = .ok T)
    (hspec : sectionPairs (cs "spectrum") (parseIndexLines (splitLines (file.drop off)) none)
        = T.spectrumOffsets)
    (hchrom : sectionPairs (cs "chromatogram")
        (parseIndexLines (splitLines (file.drop off)) none) = T.chromatogramOffsets)
    (hI1s : hasDupNat (T.spectrumOffsets.map Prod.snd) = false)
    (hI1c : hasDupNat (T.chromatogramOffsets.map Prod.snd) = false)
    (hI2 : (T.spectrumOffsets.map Prod.snd).any
        (fun o => (T.chromatogramOffsets.map Prod.snd).contains o) = false) :
    buildIndex file false = buildIndexFromScratch file emptyTables := by
  obtain ⟨hks, hkc, acc, hacc, hts, htc⟩ := scratch_ok_shape file emptyTables T hscr
  have hnds : (T.spectrumOffsets.map Prod.fst).Nodup := by
    rw [hts]
    exact dupdate_keys_nodup _ _ (by simp [emptyTables])
  have hndc : (T.chromatogramOffsets.map Prod.fst).Nodup := by
    rw [htc]
    exact dupdate_keys_nodup _ _ (by simp [emptyTables])
  have hfold := foldEntries_append (parseIndexLines (splitLines (file.drop off)) none)
      [] [] [] [] (by simpa [hspec] using hnds) (by simpa [hchrom] using hndc)
  rw [hspec, hchrom] at hfold
  simp only [List.nil_append] at hfold
  have hfa : fastAttempt file off
      = (⟨T.spectrumOffsets, T.chromatogramOffsets,
          T.spectrumOffsets.map Prod.fst, T.chromatogramOffsets.map Prod.fst⟩, none) := by
    unfold fastAttempt
    rw [show emptyTables = (⟨[], [], [], []⟩ : Tables) from rfl]
    rw [hfold]
    simp only [finalizeKeys, validateUniqueOffsets, hI1s, hI1c, hI2]
    simp
  unfold buildIndex
  rw [hfind]
  simp only [if_neg hoff, hfa]
  rw [hscr]
  obtain ⟨ts, tc, tks, tkc⟩ := T
  simp at hks hkc
  simp [hks, hkc]


theorem C4_amended_accurate_index_fast_equals_fallback_witness :
    buildIndex goodIndexFile false
      = buildIndexFromScratch goodIndexFile emptyTables :=
  C4_amended_accurate_index_fast_equals_fallback goodIndexFile 39
    ⟨[(cs "s1", 8)], [], [cs "s1"], []⟩
    (by decide) (by decide) (by decide) (by decide) (by decide)
    (by decide) (by decide) (by decide)

theorem dropWhile_eq_drop_len_takeWhile (p : Char → Bool) (l : List Char) :
    l.dropWhile p = l.drop (l.takeWhile p).length := by
  induction l with
  | nil => rfl
  | cons c rest ih =>
    by_cases h : p c <;> simp [List.dropWhile_cons, List.takeWhile_cons, h, ih]

theorem matchTag_sound (tag chunk : Bytes) (i : Nat) (r : Bytes × Nat)
    (h : matchTagStartAt tag chunk i = some r) :
    tagHeadOk tag (chunk.drop i) = true := by
  unfold matchTagStartAt at h
  by_cases h1 : chunk[i]? = some '<'
  · rw [if_pos h1] at h
    by_cases h2 : litAt chunk (i + 1 + ((chunk.drop (i + 1)).takeWhile isPySpace).length) tag
    · obtain ⟨hlt, hget⟩ := List.getElem?_eq_some.mp h1
      rw [List.drop_eq_getElem_cons hlt, hget]
      simp only [tagHeadOk]
      rw [dropWhile_eq_drop_len_takeWhile, List.drop_drop]
      unfold litAt at h2
      simpa using h2
    · rw [if_neg h2] at h
      exact absurd h (by simp)
  · rw [if_neg h1] at h
    exact absurd h (by simp)

theorem isPrefixOf_dropWhile_mono (tag : Bytes) (htag : tag ≠ []) :
    ∀ r₁ r₂ : Bytes, r₁ <+: r₂ → tag.isPrefixOf (r₁.dropWhile isPySpace) = true →
      tag.isPrefixOf (r₂.dropWhile isPySpace) = true := by
  intro r₁
  induction r₁ with
  | nil =>
    intro r₂ hpre hp
    rw [List.isPrefixOf_iff_prefix] at hp
    simp at hp
    exact absurd hp htag
  | cons c cs1 ih =>
    intro r₂ hpre hp
    obtain ⟨t, rfl⟩ := hpre
    by_cases hc : isPySpace c
    · rw [List.cons_append, List.dropWhile_cons, if_pos hc]
      rw [List.dropWhile_cons, if_pos hc] at hp
      exact ih (cs1 ++ t) ⟨t, rfl⟩ hp
    · rw [List.cons_append, List.dropWhile_cons, if_neg hc]
      rw [List.dropWhile_cons, if_neg hc] at hp
      rw [List.isPrefixOf_iff_prefix] at hp ⊢
      exact hp.trans ⟨t, by simp⟩

theorem tagHeadOk_mono (tag : Bytes) (htag : tag ≠ []) (l₁ l₂ : Bytes)
    (hpre : l₁ <+: l₂) (h : tagHeadOk tag l₁ = true) : tagHeadOk tag l₂ = true := by
  cases l₁ with
  | nil => simp [tagHeadOk] at h
  | cons c rest =>
    simp only [tagHeadOk, Bool.and_eq_true, decide_eq_true_eq] at h
    obtain ⟨hc, hp⟩ := h
    subst hc
    obtain ⟨t, rfl⟩ := hpre
    rw [List.cons_append]
    simp only [tagHeadOk, Bool.and_eq_true, decide_eq_true_eq]
    exact ⟨trivial, isPrefixOf_dropWhile_mono tag htag rest (rest ++ t) ⟨t, rfl⟩ hp⟩

theorem match_transfer (tag : Bytes) (htag : tag ≠ []) (file chunk : Bytes) (off m s : Nat)
    (hchunk : chunk = (file.drop off).take m)
    (h : tagHeadOk tag (chunk.drop s) = true) :
    tagHeadOk tag (file.drop (off + s)) = true := by
  subst hchunk
  rw [List.drop_take, List.drop_drop] at h
  exact tagHeadOk_mono tag htag _ _ (List.take_prefix _ _) h

theorem finditerGo_sound (tag chunk : Bytes) :
    ∀ fuel i s id, (s, id) ∈ finditerGo tag chunk fuel i →
      ∃ r, matchTagStartAt tag chunk s = some r := by
  intro fuel
  induction fuel with
  | zero =>
    intro i s id h
    simp [finditerGo] at h
  | succ f ih =>
    intro i s id h
    rw [finditerGo] at h
    by_cases hlt : i < chunk.length
    · rw [if_pos hlt] at h
      cases hm : matchTagStartAt tag chunk i with
      | some r =>
        rw [hm] at h
        rcases List.mem_cons.mp h with h2 | h2
        · have hs : s = i := congrArg Prod.fst h2
          subst hs
          exact ⟨r, hm⟩
        · exact ih _ _ _ h2
      | none =>
        rw [hm] at h
        exact ih _ _ _ h
    · rw [if_neg hlt] at h
      simp at h

theorem finditerTag_sound (tag chunk : Bytes) (s : Nat) (id : Bytes)
    (h : (s, id) ∈ finditerTag tag chunk) : ∃ r, matchTagStartAt tag chunk s = some r :=
  finditerGo_sound tag chunk _ _ _ _ h

theorem addPositions_mem (ms : List (Nat × Bytes)) :
    ∀ d off k o, (k, o) ∈ addPositions d off ms →
      (k, o) ∈ d ∨ ∃ s, (s, k) ∈ ms ∧ o = off + s := by
  induction ms with
  | nil =>
    intro d off k o h
    left
    simpa [addPositions] using h
  | cons m rest ih =>
    intro d off k o h
    rcases ih (dinsert d m.2 (off + m.1)) off k o h with h2 | h2
    · rcases mem_dinsert _ _ _ _ _ h2 with h3 | h3
      · left
        exact h3
      · right
        refine ⟨m.1, ?_, h3.2⟩
        rw [h3.1]
        simp
    · right
      obtain ⟨s, hs1, hs2⟩ := h2
      exact ⟨s, List.mem_cons_of_mem _ hs1, hs2⟩

theorem addPositions_I3 (file tag : Bytes) (htag : tag ≠ []) (chunk : Bytes) (off m : Nat)
    (hchunk : chunk = (file.drop off).take m) (d : List (Bytes × Nat))
    (hd : ∀ k o, (k, o) ∈ d → tagHeadOk tag (file.drop o) = true) :
    ∀ k o, (k, o) ∈ addPositions d off (finditerTag tag chunk) →
      tagHeadOk tag (file.drop o) = true := by
  intro k o hm
  rcases addPositions_mem _ _ _ _ _ hm with h | ⟨s, hsm, rfl⟩
  · exact hd k o h
  · obtain ⟨r, hr⟩ := finditerTag_sound _ _ _ _ hsm
    exact match_transfer tag htag file chunk off m s hchunk (matchTag_sound _ _ _ _ hr)

theorem scanLoop_I3 (file : Bytes) :
    ∀ (fuel p : Nat) (prev : Bytes) (acc : ScanAcc) (out : ScanAcc),
    p ≤ file.length →
    prev.length ≤ p →
    prev = (file.drop (p - prev.length)).take prev.length →
    (prev ≠ [] → 100 ≤ prev.length ∨ p = file.length) →
    (∀ k o, (k, o) ∈ acc.specPositions → tagHeadOk (cs "spectrum") (file.drop o) = true) →
    (∀ k o, (k, o) ∈ acc.chromPositions → tagHeadOk (cs "chromatogram") (file.drop o) = true) →
    scanLoop file fuel p prev acc = .ok out →
    (∀ k o, (k, o) ∈ out.specPositions → tagHeadOk (cs "spectrum") (file.drop o) = true) ∧
    (∀ k o, (k, o) ∈ out.chromPositions → tagHeadOk (cs "chromatogram") (file.drop o) = true) := by
  intro fuel
  induction fuel with
  | zero =>
    intro p prev acc out _ _ _ _ hspec hchrom hrun
    have hout : acc = out := by simpa [scanLoop] using hrun
    subst hout
    exact ⟨hspec, hchrom⟩
  | succ f ih =>
    intro p prev acc out hple hlen hslice hlb hspec hchrom hrun
    rw [scanLoop] at hrun
    by_cases hraw : ((file.drop p).take 8192).isEmpty
    · rw [if_pos hraw] at hrun
      have hout : acc = out := by simpa using hrun
      subst hout
      exact ⟨hspec, hchrom⟩
    · rw [if_neg hraw] at hrun
      have hrawlen : ((file.drop p).take 8192).length = min 8192 (file.length - p) := by
        simp [List.length_take, List.length_drop]
      have hrawne : (file.drop p).take 8192 ≠ [] := by
        simpa [List.isEmpty_iff] using hraw
      have hrlpos : 0 < ((file.drop p).take 8192).length := List.length_pos.mpr hrawne
      have hplt : p < file.length := by omega
      have hple2 : p + ((file.drop p).take 8192).length ≤ file.length := by omega
      have hraw_eq : (file.drop p).take ((file.drop p).take 8192).length
          = (file.drop p).take 8192 := by
        apply List.take_eq_take.mpr
        rw [List.length_drop]
        omega
      by_cases hprev : 0 < prev.length
      · -- lookback branch
        have h100 : 100 ≤ prev.length := by
          rcases hlb (by intro hpn; rw [hpn] at hprev; simp at hprev) with h | h
          · exact h
          · omega
        have htl : takeLast 100 prev = (file.drop (p - 100)).take 100 := by
          have h1 : prev.drop (prev.length - 100)
              = ((file.drop (p - prev.length)).take prev.length).drop (prev.length - 100) := by
            rw [← hslice]
          rw [List.drop_take, List.drop_drop] at h1
          have e1 : prev.length - (prev.length - 100) = 100 := by omega
          have e2 : p - prev.length + (prev.length - 100) = p - 100 := by omega
          rw [e1, e2] at h1
          exact h1
        have hchunk : takeLast 100 prev ++ (file.drop p).take 8192
            = (file.drop (p - 100)).take (100 + ((file.drop p).take 8192).length) := by
          rw [List.take_add, List.drop_drop]
          have e3 : p - 100 + 100 = p := by omega
          rw [e3, htl, hraw_eq]
        have hchlen : (takeLast 100 prev ++ (file.drop p).take 8192).length
            = 100 + ((file.drop p).take 8192).length := by
          rw [hchunk, List.length_take, List.length_drop]
          omega
        simp only [if_pos hprev] at hrun
        cases hc1 : countFrom (searchCountFirst (cs "chromatogramList")
            (takeLast 100 prev ++ (file.drop p).take 8192)) acc.chromCnt with
        | error e =>
          rw [hc1] at hrun
          exact absurd hrun (by simp)
        | ok ccnt =>
          rw [hc1] at hrun
          cases hc2 : countFrom (searchCountFirst (cs "spectrumList")
              (takeLast 100 prev ++ (file.drop p).take 8192)) acc.specCnt with
          | error e =>
            rw [hc2] at hrun
            exact absurd hrun (by simp)
          | ok scnt =>
            rw [hc2] at hrun
            refine ih (p + ((file.drop p).take 8192).length)
              (takeLast 100 prev ++ (file.drop p).take 8192) _ out hple2 ?_ ?_ ?_ ?_ ?_ hrun
            · rw [hchlen]
              omega
            · rw [hchlen]
              have e4 : p + ((file.drop p).take 8192).length
                  - (100 + ((file.drop p).take 8192).length) = p - 100 := by omega
              rw [e4]
              exact hchunk
            · intro _
              left
              rw [hchlen]
              omega
            · exact addPositions_I3 file (cs "spectrum") (by decide) _ (p - 100)
                (100 + ((file.drop p).take 8192).length) hchunk _ hspec
            · exact addPositions_I3 file (cs "chromatogram") (by decide) _ (p - 100)
                (100 + ((file.drop p).take 8192).length) hchunk _ hchrom
      · -- first-chunk branch (no lookback)
        have hchunk : (file.drop p).take 8192
            = (file.drop p).take ((file.drop p).take 8192).length := hraw_eq.symm
        simp only [if_neg hprev] at hrun
        cases hc1 : countFrom (searchCountFirst (cs "chromatogramList")
            ((file.drop p).take 8192)) acc.chromCnt with
        | error e =>
          rw [hc1] at hrun
          exact absurd hrun (by simp)
        | ok ccnt =>
          rw [hc1] at hrun
          cases hc2 : countFrom (searchCountFirst (cs "spectrumList")
              ((file.drop p).take 8192)) acc.specCnt with
          | error e =>
            rw [hc2] at hrun
            exact absurd hrun (by simp)
          | ok scnt =>
            rw [hc2] at hrun
            refine ih (p + ((file.drop p).take 8192).length)
              ((file.drop p).take 8192) _ out hple2 ?_ ?_ ?_ ?_ ?_ hrun
            · omega
            · have e5 : p + ((file.drop p).take 8192).length
                  - ((file.drop p).take 8192).length = p := by omega
              rw [e5]
              exact hchunk
            · intro _
              omega
            · exact addPositions_I3 file (cs "spectrum") (by decide) _ p
                ((file.drop p).take 8192).length hchunk _ hspec
            · exact addPositions_I3 file (cs "chromatogram") (by decide) _ p
                ((file.drop p).take 8192).length hchunk _ hchrom

/-- C5 (amended): for tables built by the fallback from-scratch scan
(starting from fresh tables), every stored offset points at the opening
`<` of a `<\s*spectrum` (respectively `<\s*chromatogram`) element start.
(The claim's fast-path half fails: the fast path stores embedded-index
offsets unchecked.) -/
theorem C5_amended_scratch_offsets_point_at_element_starts
    (file : Bytes) (T : Tables) (k : Bytes) (o : Nat)
    (hscr : buildIndexFromScratch file emptyTables = .ok T) :
    ((k, o) ∈ T.spectrumOffsets → tagHeadOk (cs "spectrum") (file.drop o) = true) ∧
    ((k, o) ∈ T.chromatogramOffsets → tagHeadOk (cs "chromatogram") (file.drop o) = true) := by
  obtain ⟨hks, hkc, acc, hacc, hts, htc⟩ := scratch_ok_shape file emptyTables T hscr
  have hinv := scanLoop_I3 file (file.length + 1) 0 [] ⟨[], [], 0, 0⟩ acc
    (Nat.zero_le _) (by simp) (by simp) (by simp)
    (by intro k2 o2 h2; simp at h2) (by intro k2 o2 h2; simp at h2) hacc
  constructor
  · intro hmem
    rw [hts] at hmem
    rcases mem_dupdate _ _ _ _ hmem with h | h
    · simp [emptyTables] at h
    · exact hinv.1 k o h
  · intro hmem
    rw [htc] at hmem
    rcases mem_dupdate _ _ _ _ hmem with h | h
    · simp [emptyTables] at h
    · exact hinv.2 k o h

theorem C5_amended_scratch_offsets_point_at_element_starts_witness :
    buildIndexFromScratch goodIndexFile emptyTables
      = .ok ⟨[(cs "s1", 8)], [], [cs "s1"], []⟩ ∧
    tagHeadOk (cs "spectrum") (goodIndexFile.drop 8) = true :=
  ⟨by decide,
   (C5_amended_scratch_offsets_point_at_element_starts goodIndexFile
      ⟨[(cs "s1", 8)], [], [cs "s1"], []⟩ (cs "s1") 8 (by decide)).1 (by simp)⟩

end Mzml
